import Mathlib

/-!
# Verification of `priv_tauri_updater` (src/lib.rs)

Shallow embedding of the proxy engine of `priv_tauri_updater`: a local
reverse-proxy that mirrors the latest release assets of a private GitHub
repository for a Tauri auto-updater.

Modelling conventions:
* Rust `String` / `Vec<u8>` bodies are modelled as Lean `String`
  (`String.data : List Char` is the byte/char sequence; the manifest rewrite
  core works on `List Char`).
* The `HashMap<String, String>` asset catalog is modelled as an association
  list `List (String × String)` with `List.lookup`.
* Network effects (`reqwest`) are modelled as oracles: an upstream fetch is a
  function `String → Except ReqwestError String` from URL to body, and port
  availability for binding is a predicate `Nat → Bool` on port numbers.
* `u16` port arithmetic wraps modulo 2^16 = 65536 (Rust release semantics;
  debug builds would panic on overflow, and either way the result differs
  from plain `Nat` addition only at port 65535).
* The process-wide `static COUNTER: AtomicU8` of `serve_with_retry` is
  threaded explicitly as a `Nat` argument; a fresh process starts it at 0.
-/

/-- Abstract stand-in for `reqwest::Error` (its contents are irrelevant to the
proxy logic; only its identity is propagated). -/
structure ReqwestError where
  msg : String
deriving DecidableEq, Repr

/-- `GitHubAsset` from src/lib.rs lines 43-48: one release asset as decoded
from the upstream JSON. -/
structure GitHubAsset where
  name : String
  url : String
  browser_download_url : String
deriving DecidableEq, Repr

/-- `GitHubAssetsList` from src/lib.rs lines 38-41: the decoded body of the
`releases/latest` response. -/
structure GitHubAssetsList where
  assets : List GitHubAsset
deriving DecidableEq, Repr

/-- `std::net::SocketAddr`, reduced to the parts the program uses: the textual
IP and the `u16` port.  `addrString` below mirrors its `Display` form. -/
structure SocketAddr where
  ip : String
  port : Nat
deriving DecidableEq, Repr

/-- `SocketAddr::to_string()`: `"ip:port"`. -/
def addrString (a : SocketAddr) : String :=
  a.ip ++ ":" ++ Nat.repr a.port

/-- The `PrivUpdater` struct from src/lib.rs lines 51-57.  The `reqwest`
client is an external collaborator (headers only; it carries no proxy logic)
and is not represented.  The oneshot sender held by `shutdown_signal` is
abstracted to `Unit`. -/
structure PrivUpdater where
  server_addr : SocketAddr
  assets : List (String × String)
  download_url_base : String
  shutdown_signal : Option Unit
deriving DecidableEq, Repr

/-- Outcome of `PrivUpdater::new` after the upstream response has been
fetched and decoded successfully (lines 102-125 of src/lib.rs): either a
constructed value or a Rust panic (there is no error return on this path;
the earlier header/network/JSON failures happen before the code modelled
here). -/
inductive NewOutcome where
  | ok (u : PrivUpdater)
  | panicked (msg : String)
deriving DecidableEq, Repr

/-- `str::rsplit_once('/')` followed by `.unwrap_or(("", "")).0` (line 102):
everything before the LAST occurrence of `c`, or `""` when `c` does not
occur. -/
def rsplitOnceBefore (c : Char) (s : String) : String :=
  match s.data.reverse.dropWhile (fun x => x ≠ c) with
  | [] => ""
  | _ :: rest => ⟨rest.reverse⟩

theorem rsplitOnceBefore_github : rsplitOnceBefore '/' "https://dl.example.com/v1/latest.json" = "https://dl.example.com/v1" := by decide

/-- `PrivUpdater::new` (src/lib.rs lines 80-125), modelled from the point
where the upstream `releases/latest` response has been decoded into
`release_info : GitHubAssetsList`.  Line 102 evaluates
`release_info.assets[0]`, which in Rust panics (index out of bounds) when
the asset vector is empty; otherwise the catalog maps each asset name to its
authenticated `url`, `download_url_base` strips the last path segment of the
first asset's `browser_download_url`, the server address defaults to
`127.0.0.1:7748`, and `shutdown_signal` starts as `None` (line 123). -/
def PrivUpdater.new (release_info : GitHubAssetsList) (server_addr : Option SocketAddr) : NewOutcome :=
  match release_info.assets with
  | [] => .panicked "index out of bounds: the len is 0 but the index is 0"
  | first :: _ =>
    .ok {
      server_addr := server_addr.getD ⟨"127.0.0.1", 7748⟩,
      assets := release_info.assets.map (fun file_info => (file_info.name, file_info.url)),
      download_url_base := rsplitOnceBefore '/' first.browser_download_url,
      shutdown_signal := none
    }

/-- `PrivUpdater::shutdown` (src/lib.rs lines 183-187):
`if let Some(sender) = self.shutdown_signal.take() { let _ = sender.send(()); }`.
The returned `Bool` records whether a cancellation signal was sent; the send
error (receiver dropped) is discarded by `let _ =`, so the method is total. -/
def PrivUpdater.shutdown (u : PrivUpdater) : PrivUpdater × Bool :=
  match u.shutdown_signal with
  | some _ => ({ u with shutdown_signal := none }, true)
  | none => (u, false)

/-! ## Port binder (`serve_with_retry`, src/lib.rs lines 188-208) -/

/-- The port advance of line 204: `(self.server_addr.port() + 1) % 1000` in
`u16` arithmetic.  The inner `% 65536` is the `u16` wrap of `port + 1`
(release-build semantics; it matters only at port 65535, where a debug build
would panic on overflow instead). -/
def nextPort (p : Nat) : Nat := ((p + 1) % 65536) % 1000

/-- `serve_with_retry` (src/lib.rs lines 188-208), with the bind attempt
abstracted as the availability oracle `avail` and the process-wide
`static COUNTER: AtomicU8` threaded explicitly (a fresh process starts it at
0).  Per call: if binding the current port succeeds the bound port is
returned; otherwise, if the counter already exceeds 10 the call fails with
`"Unable to find unused port"` and no listener is started; otherwise the
port advances by `nextPort`, the counter is incremented, and the call
recurses. -/
def serve_with_retry (avail : Nat → Bool) (counter port : Nat) : Except String Nat :=
  if avail port then .ok port
  else if counter > 10 then .error "Unable to find unused port"
  else serve_with_retry avail (counter + 1) (nextPort port)
termination_by 11 - counter
decreasing_by omega

/-- The k-th candidate address of the retry walk that starts at requested
port `p0` (candidate 0 is `p0` itself). -/
def candidate (p0 : Nat) : Nat → Nat
  | 0 => p0
  | k + 1 => nextPort (candidate p0 k)

theorem candidate_shift (p : Nat) (k : Nat) :
    candidate p (k + 1) = candidate (nextPort p) k := by
  induction k with
  | zero => rfl
  | succ m ihm => rw [candidate, ihm, candidate]

/-- If the first `N` candidates are unavailable and candidate `N` is
available, and the retry budget suffices (`counter + N ≤ 11`), the binder
returns candidate `N`. -/
theorem serve_with_retry_ok (avail : Nat → Bool) (c p N : Nat) (hc : c + N ≤ 11)
    (hfail : ∀ k, k < N → avail (candidate p k) = false)
    (hsucc : avail (candidate p N) = true) :
    serve_with_retry avail c p = .ok (candidate p N) := by
  induction N generalizing c p with
  | zero =>
    rw [serve_with_retry]
    simp [candidate] at hsucc
    simp [hsucc, candidate]
  | succ n ih =>
    rw [serve_with_retry]
    have h0 : avail p = false := by
      have := hfail 0 (Nat.succ_pos n)
      simpa [candidate] using this
    have hc' : ¬ (c > 10) := by omega
    simp [h0, hc']
    have hfail' : ∀ k, k < n → avail (candidate (nextPort p) k) = false := by
      intro k hk
      have := hfail (k + 1) (by omega)
      rwa [candidate_shift] at this
    have hsucc' : avail (candidate (nextPort p) n) = true := by
      rwa [candidate_shift] at hsucc
    rw [ih (c + 1) (nextPort p) (by omega) hfail' hsucc', candidate_shift]

theorem serve_with_retry_err_aux (avail : Nat → Bool) (m : Nat) :
    ∀ c p, 11 - c = m → (∀ k, k ≤ m → avail (candidate p k) = false) →
    serve_with_retry avail c p = .error "Unable to find unused port" := by
  induction m with
  | zero =>
    intro c p hm hfail
    have h0 : avail p = false := by
      have := hfail 0 (Nat.zero_le _)
      simpa [candidate] using this
    rw [serve_with_retry]
    have hc : c > 10 := by omega
    simp [h0, hc]
  | succ n ih =>
    intro c p hm hfail
    have h0 : avail p = false := by
      have := hfail 0 (Nat.zero_le _)
      simpa [candidate] using this
    have hc : ¬ (c > 10) := by omega
    rw [serve_with_retry]
    simp [h0, hc]
    exact ih (c + 1) (nextPort p) (by omega) (fun k hk => by
      have := hfail (k + 1) (by omega)
      rwa [candidate_shift] at this)

/-- If every candidate within the whole remaining retry budget is
unavailable, the binder fails with the descriptive error. -/
theorem serve_with_retry_err (avail : Nat → Bool) (c p : Nat)
    (hfail : ∀ k, k ≤ 11 - c → avail (candidate p k) = false) :
    serve_with_retry avail c p = .error "Unable to find unused port" :=
  serve_with_retry_err_aux avail (11 - c) c p rfl hfail

/-! ## The manifest rewrite (`str::replace`, used at src/lib.rs line 216)

`get_latest_json` rewrites the manifest with Rust's `str::replace`, which
substitutes the replacement for every non-overlapping occurrence of the
pattern, scanning left to right.  `replaceGo` is that scan for a non-empty
pattern; `rustReplace` adds Rust's empty-pattern behaviour (a match at every
character boundary).  `splitSeg` decomposes the subject into the segments
between those matches; the theorems below show the scan is exactly
"replace every occurrence, alter nothing else". -/

/-- Left-to-right scan of Rust's `str::replace` for a non-empty pattern: at
each position, either the pattern matches and is consumed (emitting the
replacement), or one character is copied unchanged. -/
def replaceGo (pat rep : List Char) : List Char → List Char
  | [] => []
  | c :: rest =>
    if pat ≠ [] ∧ pat.isPrefixOf (c :: rest) then
      rep ++ replaceGo pat rep (List.drop pat.length (c :: rest))
    else
      c :: replaceGo pat rep rest
termination_by s => s.length
decreasing_by
  · simp only [List.length_drop, List.length_cons]
    rename_i h
    have : pat.length ≥ 1 := List.length_pos.mpr h.1
    omega
  · simp

/-- Rust `str::replace(pat, rep)`: `replaceGo` for a non-empty pattern; for
the empty pattern Rust matches at every character boundary, yielding `rep`
interleaved between all characters and at both ends. -/
def rustReplace (s pat rep : List Char) : List Char :=
  if pat = [] then rep ++ (s.map (fun c => c :: rep)).flatten
  else replaceGo pat rep s

/-- The segments of `s` strictly between the non-overlapping left-to-right
matches of `pat` (the decomposition underlying `str::replace` /
`str::split`). -/
def splitSeg (pat : List Char) : List Char → List (List Char)
  | [] => [[]]
  | c :: rest =>
    if pat ≠ [] ∧ pat.isPrefixOf (c :: rest) then
      [] :: splitSeg pat (List.drop pat.length (c :: rest))
    else
      match splitSeg pat rest with
      | [] => [[c]]
      | s :: ss => (c :: s) :: ss
termination_by s => s.length
decreasing_by
  · simp only [List.length_drop, List.length_cons]
    rename_i h
    have : pat.length ≥ 1 := List.length_pos.mpr h.1
    omega
  · simp

/-- A prefix is in particular an infix. -/
theorem occ_of_pre {l1 l2 : List Char} (h : l1 <+: l2) : l1 <:+: l2 := by
  obtain ⟨t, rfl⟩ := h
  exact ⟨[], t, by simp⟩

theorem intercalate_cons_ne_nil (sep a : List Char) (ss : List (List Char)) (h : ss ≠ []) :
    List.intercalate sep (a :: ss) = a ++ sep ++ List.intercalate sep ss := by
  cases ss with
  | nil => exact absurd rfl h
  | cons b bs => simp [List.intercalate, List.intersperse, List.append_assoc]

theorem splitSeg_ne_nil (pat s : List Char) : splitSeg pat s ≠ [] := by
  induction s using splitSeg.induct pat with
  | case1 => simp [splitSeg]
  | case2 c rest h ih =>
    rw [splitSeg, if_pos h]
    simp
  | case3 c rest h heq ih => exact absurd heq ih
  | case4 c rest h s0 ss heq ih =>
    rw [splitSeg, if_neg h, heq]
    simp

theorem prefix_append_drop {pat s : List Char} (h : pat.isPrefixOf s = true) :
    pat ++ List.drop pat.length s = s := by
  have hp : pat <+: s := List.isPrefixOf_iff_prefix.mp h
  have ht : pat = List.take pat.length s := List.prefix_iff_eq_take.mp hp
  conv_rhs => rw [← List.take_append_drop pat.length s, ← ht]

/-- Reassembling the segments with the pattern itself restores the subject:
`splitSeg` loses nothing. -/
theorem splitSeg_join (pat : List Char) (s : List Char) :
    List.intercalate pat (splitSeg pat s) = s := by
  induction s using splitSeg.induct pat with
  | case1 => simp [splitSeg, List.intercalate]
  | case2 c rest h ih =>
    rw [splitSeg, if_pos h, intercalate_cons_ne_nil pat [] _ (splitSeg_ne_nil _ _), ih]
    simpa using prefix_append_drop h.2
  | case3 c rest h heq ih => exact absurd heq (splitSeg_ne_nil _ _)
  | case4 c rest h s0 ss heq ih =>
    rw [splitSeg, if_neg h, heq]
    show List.intercalate pat ((c :: s0) :: ss) = c :: rest
    rw [heq] at ih
    cases ss with
    | nil =>
      simp [List.intercalate] at ih ⊢
      simp [ih]
    | cons t ts =>
      rw [intercalate_cons_ne_nil _ _ _ (by simp)]
      rw [intercalate_cons_ne_nil _ _ _ (by simp)] at ih
      simp only [← ih, List.cons_append, List.append_assoc]

/-- The scan emits exactly the segments of `splitSeg`, joined by the
replacement: every match of the pattern is replaced and the segments in
between are kept verbatim. -/
theorem replaceGo_eq_intercalate (pat rep : List Char) (s : List Char) :
    replaceGo pat rep s = List.intercalate rep (splitSeg pat s) := by
  induction s using splitSeg.induct pat with
  | case1 => simp [splitSeg, replaceGo, List.intercalate]
  | case2 c rest h ih =>
    rw [splitSeg, replaceGo, if_pos h, if_pos h,
        intercalate_cons_ne_nil rep [] _ (splitSeg_ne_nil _ _), ih]
    simp
  | case3 c rest h heq ih => exact absurd heq (splitSeg_ne_nil _ _)
  | case4 c rest h s0 ss heq ih =>
    rw [splitSeg, replaceGo, if_neg h, if_neg h, heq]
    show c :: replaceGo pat rep rest = List.intercalate rep ((c :: s0) :: ss)
    rw [heq] at ih
    cases ss with
    | nil =>
      simp [List.intercalate] at ih ⊢
      simp [ih]
    | cons t ts =>
      rw [intercalate_cons_ne_nil _ _ _ (by simp)]
      rw [intercalate_cons_ne_nil _ _ _ (by simp)] at ih
      simp only [ih, List.cons_append, List.append_assoc]

theorem splitSeg_headI_pre (pat : List Char) (s : List Char) :
    (splitSeg pat s).headI <+: s := by
  induction s using splitSeg.induct pat with
  | case1 => simp [splitSeg]
  | case2 c rest h ih =>
    rw [splitSeg, if_pos h]
    simp
  | case3 c rest h heq ih => exact absurd heq (splitSeg_ne_nil _ _)
  | case4 c rest h s0 ss heq ih =>
    rw [splitSeg, if_neg h, heq]
    show ((c :: s0) :: ss).headI <+: c :: rest
    rw [heq] at ih
    simp only [List.headI] at ih ⊢
    exact List.cons_prefix_cons.mpr ⟨rfl, ih⟩

/-- No segment produced by `splitSeg` still contains an occurrence of the
(non-empty) pattern: the scan replaces EVERY occurrence. -/
theorem splitSeg_no_occ (pat : List Char) (hpat : pat ≠ []) (s : List Char) :
    ∀ seg ∈ splitSeg pat s, ¬ pat <:+: seg := by
  induction s using splitSeg.induct pat with
  | case1 =>
    intro seg hseg
    simp [splitSeg] at hseg
    subst hseg
    simpa [List.infix_nil] using hpat
  | case2 c rest h ih =>
    intro seg hseg
    rw [splitSeg, if_pos h] at hseg
    rcases List.mem_cons.mp hseg with rfl | hseg
    · simpa [List.infix_nil] using hpat
    · exact ih seg hseg
  | case3 c rest h heq ih => exact absurd heq (splitSeg_ne_nil _ _)
  | case4 c rest h s0 ss heq ih =>
    intro seg hseg
    rw [splitSeg, if_neg h, heq] at hseg
    have hseg' : seg ∈ (c :: s0) :: ss := hseg
    have hnp : ¬ (pat.isPrefixOf (c :: rest) = true) := fun hc => h ⟨hpat, hc⟩
    rcases List.mem_cons.mp hseg' with rfl | hseg''
    · intro hinf
      rcases List.infix_cons_iff.mp hinf with hpre | hinf0
      · have hs0 : s0 <+: rest := by
          have := splitSeg_headI_pre pat rest
          rwa [heq, List.headI] at this
        have hpc : pat <+: c :: rest :=
          hpre.trans (List.cons_prefix_cons.mpr ⟨rfl, hs0⟩)
        exact hnp (List.isPrefixOf_iff_prefix.mpr hpc)
      · exact ih s0 (by rw [heq]; exact List.mem_cons_self _ _) hinf0
    · exact ih seg (by rw [heq]; exact List.mem_cons_of_mem _ hseg'')

/-- If the pattern occurs nowhere in the subject, the scan copies it
verbatim. -/
theorem replaceGo_no_occ (pat rep : List Char) (s : List Char) (h : ¬ pat <:+: s) :
    replaceGo pat rep s = s := by
  induction s with
  | nil => rw [replaceGo]
  | cons c rest ih =>
    have hnp : ¬ (pat.isPrefixOf (c :: rest) = true) := by
      intro hc
      have hp : pat <+: c :: rest := List.isPrefixOf_iff_prefix.mp hc
      exact h (occ_of_pre hp)
    have hni : ¬ pat <:+: rest := fun hc => h (List.infix_cons_iff.mpr (Or.inr hc))
    rw [replaceGo, if_neg (fun hc => hnp hc.2), ih hni]

/-! ## Request handler and server lifecycle (src/lib.rs lines 127-221) -/

/-- A warp rejection as produced by the request closure (src/lib.rs lines
151-163): `warp::reject::not_found()` on a catalog miss, or the custom
`ReqwestError` rejection wrapping an upstream fetch failure. -/
inductive Rejection where
  | notFound
  | reqwestError (e : ReqwestError)
deriving DecidableEq, Repr

/-- `get_latest_json` (src/lib.rs lines 214-217).  The `client.get(url)`
round-trip is abstracted into its outcome `fetched`; on success the body
text has every occurrence of `download_url_base` replaced by `server_addr`
(Rust `str::replace`) and is returned as bytes; a fetch failure is
propagated unchanged. -/
def get_latest_json (fetched : Except ReqwestError String) (download_url_base server_addr : String) : Except ReqwestError String :=
  match fetched with
  | .ok text => .ok ⟨rustReplace text.data download_url_base.data server_addr.data⟩
  | .error e => .error e

/-- `get_file` (src/lib.rs lines 219-221): the asset body bytes are returned
exactly as fetched; a fetch failure is propagated unchanged. -/
def get_file (fetched : Except ReqwestError String) : Except ReqwestError String :=
  match fetched with
  | .ok bytes => .ok bytes
  | .error e => .error e

/-- The per-request closure of `serve_update` (src/lib.rs lines 144-164):
look the filename up in the catalog (miss → `not_found`); for
`"latest.json"` take the manifest path through `get_latest_json`, otherwise
the binary path through `get_file`; wrap either path's fetch failure in the
custom `ReqwestError` rejection.  `upstream` is the authenticated client as
an oracle from URL to fetch outcome. -/
def handleRequest (assets : List (String × String)) (upstream : String → Except ReqwestError String)
    (server_addr download_url_base : String) (filename : String) : Except Rejection String :=
  match assets.lookup filename with
  | none => .error .notFound
  | some url =>
    if filename = "latest.json" then
      match get_latest_json (upstream url) download_url_base server_addr with
      | .ok body => .ok body
      | .error e => .error (.reqwestError e)
    else
      match get_file (upstream url) with
      | .ok body => .ok body
      | .error e => .error (.reqwestError e)

/-- What a successful `serve_update` hands back (src/lib.rs lines 127-181):
the oneshot cancellation sender `tx` (returned to the caller, never stored
back into any `PrivUpdater`), and the server snapshot closed over by every
request: the catalog, the local base URL string and upstream base captured
on lines 128-138 BEFORE any bind attempt, plus the effective bound port. -/
structure ServeOutcome where
  tx : Unit
  assets : List (String × String)
  localBase : String
  downloadUrlBase : String
  boundPort : Nat
deriving DecidableEq, Repr

/-- The request handler as configured by a `ServeOutcome`: the warp route
closes over the snapshot fields (src/lib.rs lines 139-164). -/
def ServeOutcome.handle (out : ServeOutcome) (upstream : String → Except ReqwestError String)
    (filename : String) : Except Rejection String :=
  handleRequest out.assets upstream out.localBase out.downloadUrlBase filename

/-- `PrivUpdater::serve_update` (src/lib.rs lines 127-181).  It consumes the
updater (`mut self` by value).  Lines 128-138 capture the snapshot —
in particular `server_addr = "http://" + self.server_addr.to_string()` —
before `serve_with_retry` walks the ports (mutating only its local
`self`); on a successful bind the spawned server uses the snapshot and the
oneshot sender `tx` is returned to the caller without being stored
anywhere. -/
def serve_update (u : PrivUpdater) (avail : Nat → Bool) : Except String ServeOutcome :=
  let server_addr := "http://" ++ addrString u.server_addr
  match serve_with_retry avail 0 u.server_addr.port with
  | .ok boundPort =>
    .ok {
      tx := (),
      assets := u.assets,
      localBase := server_addr,
      downloadUrlBase := u.download_url_base,
      boundPort := boundPort
    }
  | .error e => .error e

/-- The `PrivUpdater` values reachable in a program: those built by
`PrivUpdater::new` plus those that went through `shutdown` (`&mut self`).
`serve_update` consumes its updater by value and returns no updater (its
result holds the oneshot sender, never written into a `shutdown_signal`
field), so serving adds no reachable updater state. -/
inductive Reachable : PrivUpdater → Prop where
  | fromNew : ∀ resp addr u, PrivUpdater.new resp addr = .ok u → Reachable u
  | fromShutdown : ∀ u, Reachable u → Reachable (PrivUpdater.shutdown u).1

/-! ## Claim C1 -/

/-- C1: for an upstream response whose assets list is empty,
`PrivUpdater::new` does NOT return an error — line 102 indexes
`release_info.assets[0]` on the empty vector and the construction panics.
This refutes the claimed guard and exhibits the code's actual behaviour at
the claim's edge case. -/
theorem new_empty_assets_panics (addr : Option SocketAddr) :
    PrivUpdater.new ⟨[]⟩ addr = .panicked "index out of bounds: the len is 0 but the index is 0" := rfl

/-! ## Claim C3 -/

/-- C3 (counterexample): with MORE than 10 consecutive unavailable ports —
here the 11 candidates 100,101,...,110 are all unavailable and only port 111
is free — binding does NOT fail: the binder succeeds on the 12th candidate.
The counter check `COUNTER > 10` on line 201 is evaluated before the 11th
increment, so up to 11 consecutive failures are tolerated, not 10. -/
theorem serve_with_retry_eleven_unavailable_still_binds :
    (∀ k, k < 11 → (fun p => p == 111) (candidate 100 k) = false)
    ∧ serve_with_retry (fun p => p == 111) 0 100 = .ok 111 := by
  constructor
  · decide
  · have h := serve_with_retry_ok (fun p => p == 111) 0 100 11 (by omega) (by decide) (by decide)
    have hc : candidate 100 11 = 111 := by decide
    rwa [hc] at h

/-- C3 (amended): for every `N ≤ 11` consecutive unavailable ports starting
at the requested port, the binder succeeds on the `(N+1)`-th candidate; only
when 12 (or more) consecutive candidates are unavailable does binding fail
with the descriptive "Unable to find unused port" error (and no listener is
started). -/
theorem serve_with_retry_bound_amended (avail : Nat → Bool) (p0 N : Nat) :
    (N ≤ 11 → (∀ k, k < N → avail (candidate p0 k) = false) →
      avail (candidate p0 N) = true →
      serve_with_retry avail 0 p0 = .ok (candidate p0 N))
    ∧ ((∀ k, k ≤ 11 → avail (candidate p0 k) = false) →
      serve_with_retry avail 0 p0 = .error "Unable to find unused port") := by
  constructor
  · intro hN hf hs
    exact serve_with_retry_ok avail 0 p0 N (by omega) hf hs
  · intro hf
    exact serve_with_retry_err avail 0 p0 (by simpa using hf)

theorem serve_with_retry_bound_amended_witness :
    serve_with_retry (fun p => p == 103) 0 100 = .ok (candidate 100 3)
    ∧ serve_with_retry (fun _ => false) 0 200 = .error "Unable to find unused port" :=
  ⟨(serve_with_retry_bound_amended (fun p => p == 103) 100 3).1 (by omega) (by decide) (by decide),
   (serve_with_retry_bound_amended (fun _ => false) 200 0).2 (by decide)⟩

/-! ## Claim C10 -/

/-- C10 (counterexample): at candidate port 65535 a failed bind attempt does
NOT advance to `(p + 1) mod 1000 = 536`: `self.server_addr.port() + 1` is
`u16` arithmetic, which wraps 65536 to 0 (a debug build would panic), so the
advance lands on port 0. -/
theorem nextPort_at_u16_max :
    nextPort 65535 = 0 ∧ (65535 + 1) % 1000 = 536
    ∧ ¬ nextPort 65535 = (65535 + 1) % 1000 := by decide

/-- C10 (amended): for every candidate port `p < 65535` a failed bind
attempt advances to `(p + 1) mod 1000` (at 65535 the u16 wrap lands on 0);
every advanced port is below 1000, so the retry walk stays within a window
smaller than the 16-bit port space and ports at and above 1000 are
unreachable by retries (every candidate after the requested one is below
1000). -/
theorem nextPort_window (p : Nat) :
    (p < 65535 → nextPort p = (p + 1) % 1000)
    ∧ nextPort p < 1000
    ∧ (∀ k, 1 ≤ k → candidate p k < 1000) := by
  refine ⟨?_, ?_, ?_⟩
  · intro hp
    have h1 : (p + 1) % 65536 = p + 1 := Nat.mod_eq_of_lt (by omega)
    unfold nextPort
    rw [h1]
  · exact Nat.mod_lt _ (by norm_num)
  · intro k hk
    match k, hk with
    | m + 1, _ =>
      rw [candidate]
      exact Nat.mod_lt _ (by norm_num)

theorem nextPort_window_witness :
    (7748 < 65535 ∧ nextPort 7748 = (7748 + 1) % 1000) ∧ candidate 7748 1 < 1000 :=
  ⟨⟨by decide, (nextPort_window 7748).1 (by decide)⟩,
   (nextPort_window 7748).2.2 1 (by decide)⟩

/-! ## Claims C2 and C8 -/

/-- C2: for every upstream manifest body, the manifest response equals the
body decomposed at every (left-to-right, non-overlapping) occurrence of
`download_url_base` with the local base URL substituted for each occurrence:
the response is the segments joined by the local base, the segments joined
by `download_url_base` reassemble the original body exactly, and no segment
contains a further occurrence — so every literal occurrence is replaced and
no other substring is altered.  (The upstream base is non-empty; `splitSeg`
is the occurrence decomposition of Rust's `str::replace`.) -/
theorem get_latest_json_rewrites (body base localBase : String) (h : base ≠ "") :
    get_latest_json (.ok body) base localBase
      = .ok ⟨List.intercalate localBase.data (splitSeg base.data body.data)⟩
    ∧ List.intercalate base.data (splitSeg base.data body.data) = body.data
    ∧ ∀ seg ∈ splitSeg base.data body.data, ¬ base.data <:+: seg := by
  have hd : base.data ≠ [] := by
    intro hc
    exact h (String.ext hc)
  refine ⟨?_, splitSeg_join _ _, splitSeg_no_occ _ hd _⟩
  simp only [get_latest_json, rustReplace, if_neg hd, replaceGo_eq_intercalate]

def baseW : String := "https://dl.example.com/v1"

def localW : String := "http://127.0.0.1:7748"

def bodyW : String := "get https://dl.example.com/v1/app.exe now"

theorem get_latest_json_rewrites_witness :
    baseW ≠ ""
    ∧ (get_latest_json (.ok bodyW) baseW localW
        = .ok ⟨List.intercalate localW.data (splitSeg baseW.data bodyW.data)⟩
      ∧ List.intercalate baseW.data (splitSeg baseW.data bodyW.data) = bodyW.data
      ∧ ∀ seg ∈ splitSeg baseW.data bodyW.data, ¬ baseW.data <:+: seg) :=
  ⟨by decide, get_latest_json_rewrites bodyW baseW localW (by decide)⟩

/-- C8: round-trip of the manifest rewrite: when `download_url_base` does
not occur anywhere in the upstream body, `get_latest_json` returns the body
unchanged. -/
theorem get_latest_json_roundtrip (body base localBase : String)
    (h : ¬ base.data <:+: body.data) :
    get_latest_json (.ok body) base localBase = .ok body := by
  have hd : base.data ≠ [] := by
    intro hc
    rw [hc] at h
    exact h List.nil_infix
  simp only [get_latest_json, rustReplace, if_neg hd,
    replaceGo_no_occ base.data localBase.data body.data h]

theorem get_latest_json_roundtrip_witness :
    ¬ baseW.data <:+: ("no upstream base here" : String).data
    ∧ get_latest_json (.ok "no upstream base here") baseW localW = .ok "no upstream base here" :=
  ⟨by decide, get_latest_json_roundtrip "no upstream base here" baseW localW (by decide)⟩

/-! ## Claims C6 and C7 -/

/-- C6: the handler answers `not_found` exactly for the filenames absent
from the catalog, whatever the catalog state, the upstream behaviour and the
snapshot strings — the one defined miss behaviour, with no partial matching
and no redirects (a catalog hit never produces `not_found`). -/
theorem handler_miss_not_found (assets : List (String × String))
    (upstream : String → Except ReqwestError String)
    (server_addr download_url_base filename : String) :
    handleRequest assets upstream server_addr download_url_base filename = .error .notFound
    ↔ assets.lookup filename = none := by
  cases hurl : assets.lookup filename with
  | none => simp [handleRequest, hurl]
  | some url =>
    simp only [handleRequest, hurl]
    constructor
    · intro h
      exfalso
      by_cases hf : filename = "latest.json"
      · rw [if_pos hf] at h
        cases hg : get_latest_json (upstream url) download_url_base server_addr with
        | ok b => rw [hg] at h; simp at h
        | error e => rw [hg] at h; simp at h
      · rw [if_neg hf] at h
        cases hg : get_file (upstream url) with
        | ok b => rw [hg] at h; simp at h
        | error e => rw [hg] at h; simp at h
    · intro h
      exact absurd h (by simp)

/-- C7: for a filename present in the catalog: on the binary path (any
non-manifest filename) a successful upstream fetch is passed through
byte-identically; and on EITHER path an upstream fetch failure surfaces as
the distinct `ReqwestError` rejection, never as `not_found`. -/
theorem handler_hit_upstream (assets : List (String × String))
    (upstream : String → Except ReqwestError String)
    (server_addr download_url_base filename url : String)
    (hurl : assets.lookup filename = some url) :
    (filename ≠ "latest.json" → ∀ b, upstream url = .ok b →
      handleRequest assets upstream server_addr download_url_base filename = .ok b)
    ∧ (∀ e, upstream url = .error e →
      handleRequest assets upstream server_addr download_url_base filename
        = .error (.reqwestError e)
      ∧ handleRequest assets upstream server_addr download_url_base filename
        ≠ .error .notFound) := by
  constructor
  · intro hf b hb
    simp only [handleRequest, hurl, if_neg hf, get_file, hb]
  · intro e he
    have hmain : handleRequest assets upstream server_addr download_url_base filename
        = .error (.reqwestError e) := by
      by_cases hf : filename = "latest.json"
      · simp only [handleRequest, hurl, if_pos hf, get_latest_json, he]
      · simp only [handleRequest, hurl, if_neg hf, get_file, he]
    refine ⟨hmain, ?_⟩
    rw [hmain]
    simp

def catalogW : List (String × String) := [("latest.json", "U1"), ("app.exe", "U2")]

def upOkW : String → Except ReqwestError String :=
  fun url => if url = "U2" then .ok "BINARYBYTES" else .error ⟨"other"⟩

def upErrW : String → Except ReqwestError String := fun _ => .error ⟨"timeout"⟩

theorem handler_hit_upstream_witness :
    handleRequest catalogW upOkW localW baseW "app.exe" = .ok "BINARYBYTES"
    ∧ handleRequest catalogW upErrW localW baseW "latest.json"
        = .error (.reqwestError ⟨"timeout"⟩) :=
  ⟨(handler_hit_upstream catalogW upOkW localW baseW "app.exe" "U2" (by decide)).1
      (by decide) "BINARYBYTES" rfl,
   ((handler_hit_upstream catalogW upErrW localW baseW "latest.json" "U1" (by decide)).2
      ⟨"timeout"⟩ rfl).1⟩

/-! ## Claim C4 -/

/-- C4: the local base URL in the server snapshot is exactly `"http://"`
followed by the address requested at construction, captured on line 136
before any bind attempt; every request handled by the spawned server
rewrites with that string — so even a run whose retry walk bound a
different port still substitutes the originally requested port, never the
effective bound port. -/
theorem serve_update_localBase (u : PrivUpdater) (avail : Nat → Bool) (out : ServeOutcome)
    (h : serve_update u avail = .ok out) :
    out.localBase = "http://" ++ addrString u.server_addr
    ∧ ∀ upstream filename, out.handle upstream filename
        = handleRequest u.assets upstream ("http://" ++ addrString u.server_addr)
            u.download_url_base filename := by
  cases hr : serve_with_retry avail 0 u.server_addr.port with
  | ok p =>
    simp only [serve_update, hr] at h
    injection h with h2
    subst h2
    exact ⟨rfl, fun upstream filename => rfl⟩
  | error e =>
    simp only [serve_update, hr] at h
    exact Except.noConfusion h

def updater100 : PrivUpdater :=
  ⟨⟨"127.0.0.1", 100⟩, [("latest.json", "U1")], "https://dl.example.com/v1", none⟩

def availShift : Nat → Bool := fun p => p == 101

def outW : ServeOutcome :=
  ⟨(), updater100.assets, "http://" ++ addrString updater100.server_addr,
   updater100.download_url_base, 101⟩

theorem serve_update_localBase_witness :
    serve_update updater100 availShift = .ok outW
    ∧ outW.boundPort ≠ updater100.server_addr.port
    ∧ outW.localBase = "http://" ++ addrString updater100.server_addr := by
  have hb : serve_with_retry availShift 0 updater100.server_addr.port = .ok 101 := by
    have h1 := serve_with_retry_ok availShift 0 100 1 (by omega) (by decide) (by decide)
    have hc : candidate 100 1 = 101 := by decide
    rw [hc] at h1
    exact h1
  have hrun : serve_update updater100 availShift = .ok outW := by
    simp only [serve_update, hb]
    rfl
  exact ⟨hrun, by decide, (serve_update_localBase updater100 availShift outW hrun).1⟩

/-! ## Claims C5 and C9 -/

/-- C5: every reachable `PrivUpdater` has `shutdown_signal = None`:
`new` initialises the field to `None` (line 123), `serve_update` consumes
the updater and returns the oneshot sender to the caller without storing it
into any field, and `shutdown` only takes from the field — so `shutdown`
never finds a stored sender and never sends a cancellation signal. -/
theorem shutdown_signal_stays_none (u : PrivUpdater) (h : Reachable u) :
    u.shutdown_signal = none ∧ (PrivUpdater.shutdown u).2 = false := by
  induction h with
  | fromNew resp addr u0 hnew =>
    cases hresp : resp.assets with
    | nil => simp [PrivUpdater.new, hresp] at hnew
    | cons first rest =>
      simp only [PrivUpdater.new, hresp] at hnew
      injection hnew with h2
      subst h2
      exact ⟨rfl, rfl⟩
  | fromShutdown u0 h0 ih =>
    obtain ⟨h1, _⟩ := ih
    simp [PrivUpdater.shutdown, h1]

def resp0 : GitHubAssetsList :=
  ⟨[⟨"latest.json", "U1", "https://dl.example.com/v1/latest.json"⟩]⟩

def updater0 : PrivUpdater :=
  ⟨⟨"127.0.0.1", 7748⟩, [("latest.json", "U1")], "https://dl.example.com/v1", none⟩

theorem shutdown_signal_stays_none_witness :
    Reachable updater0
    ∧ updater0.shutdown_signal = none
    ∧ (PrivUpdater.shutdown updater0).2 = false := by
  have hr : Reachable updater0 := .fromNew resp0 none updater0 (by decide)
  exact ⟨hr, shutdown_signal_stays_none updater0 hr⟩

/-- C9: shutdown is idempotent and total: a second `shutdown` right after a
first one changes nothing and sends nothing; on an updater whose
`shutdown_signal` is `None` — in particular any updater fresh out of
`new`, i.e. one on which serve was never invoked — `shutdown` is a silent
no-op (the model is a total function: the Rust body is a plain `if let`
with the send error discarded, so no panic and no error return exists). -/
theorem shutdown_idempotent (u : PrivUpdater) :
    (PrivUpdater.shutdown (PrivUpdater.shutdown u).1).1 = (PrivUpdater.shutdown u).1
    ∧ (PrivUpdater.shutdown (PrivUpdater.shutdown u).1).2 = false
    ∧ (u.shutdown_signal = none → PrivUpdater.shutdown u = (u, false))
    ∧ (∀ resp addr u0, PrivUpdater.new resp addr = .ok u0 →
        PrivUpdater.shutdown u0 = (u0, false)) := by
  have key : ∀ v : PrivUpdater, v.shutdown_signal = none →
      PrivUpdater.shutdown v = (v, false) := by
    intro v hv
    simp [PrivUpdater.shutdown, hv]
  have sig1 : (PrivUpdater.shutdown u).1.shutdown_signal = none := by
    cases hs : u.shutdown_signal <;> simp [PrivUpdater.shutdown, hs]
  refine ⟨?_, ?_, key u, ?_⟩
  · rw [key _ sig1]
  · rw [key _ sig1]
  · intro resp addr u0 hnew
    cases hresp : resp.assets with
    | nil => simp [PrivUpdater.new, hresp] at hnew
    | cons first rest =>
      simp only [PrivUpdater.new, hresp] at hnew
      injection hnew with h2
      subst h2
      exact key _ rfl

def updater1 : PrivUpdater :=
  ⟨⟨"127.0.0.1", 7748⟩, [("latest.json", "U1")], "https://dl.example.com/v1", some ()⟩

theorem shutdown_idempotent_witness :
    (updater0.shutdown_signal = none ∧ PrivUpdater.shutdown updater0 = (updater0, false))
    ∧ (PrivUpdater.shutdown (PrivUpdater.shutdown updater1).1).2 = false
    ∧ (PrivUpdater.new resp0 none = .ok updater0
        ∧ PrivUpdater.shutdown updater0 = (updater0, false)) :=
  ⟨⟨by decide, (shutdown_idempotent updater0).2.2.1 (by decide)⟩,
   (shutdown_idempotent updater1).2.1,
   ⟨by decide, (shutdown_idempotent updater0).2.2.2 resp0 none updater0 (by decide)⟩⟩
